import Mathlib

/-!
A shallow embedding of `src/src/projectmodel.cpp` from the MQ-Sprite
repository: the project-file persistence engine (asset registry, JSON
document mappers for folders / parts / composites, and the `load` / `save`
entry points).

Modelling conventions, stated once here:

* `QUuid` is modelled by its canonical string form; the empty string `""`
  stands for the null uuid (`QUuid().isNull()`).
* `QJsonValue` is the inductive `JValue`; JSON numbers are modelled as `Int`
  (every numeric field the code reads goes through `toInt` /
  `toVariant().toInt()`, and non-integral doubles play no role in any claim).
  A missing key (`QJsonValue::Undefined`) behaves like `null` under every
  conversion the code performs, so lookups default to `JValue.null`.
* `QJsonObject` and the various `QMap`s are association lists with
  replace-on-equal-key insertion, which is `QMap::insert` semantics.  (Qt
  iterates these containers in key-sorted order; no claim depends on
  iteration order.)
* `Q_ASSERT` is modelled as a fatal check: an assertion failure (or an
  out-of-bounds / null-pointer access, which aborts the process just as
  surely) makes the surrounding decoder return an error value instead of a
  result.  The constructors of `PartFail` record which abnormal exit was
  taken.
* External collaborators (the JSON text parser `QJsonDocument::fromJson` and
  the image codec `QImage::loadFromData`) are passed to `load` as function
  parameters, so every theorem about `load` holds for all behaviours of
  those collaborators.
-/

namespace MQSprite

/-- Asset kinds, mirroring `enum AssetType`.  The enum itself is declared in
`projectmodel.h` (not part of the given sources); the three alternatives are
exactly those used by `projectmodel.cpp`. -/
inductive AssetType where
  | Part
  | Composite
  | Folder
deriving DecidableEq, Repr

/-- Model of `AssetRef`: a typed unique identifier.  `uuid` is the canonical string
form of the `QUuid`, with `""` for the null uuid. -/
structure AssetRef where
  uuid : String
  type : AssetType
deriving DecidableEq, Repr

/-- A default-constructed `AssetRef`: null uuid (the `type` member is
irrelevant for null refs under `operator==`). -/
def nullRef : AssetRef := { uuid := "", type := AssetType.Part }

/-- Model of `AssetRef::isNull()` (via `QUuid::isNull`). -/
def AssetRef.isNull (r : AssetRef) : Bool := r.uuid == ""

/-- Model of `operator==(const AssetRef&, const AssetRef&)`, projectmodel.cpp line 30:
two refs are equal iff both uuids are null, or uuid and type both match. -/
abbrev refEq (a b : AssetRef) : Prop :=
  (a.uuid = "" ∧ b.uuid = "") ∨ (a.uuid = b.uuid ∧ a.type = b.type)

/-- The JSON value model (`QJsonValue`).  Numbers are `Int`; see the header
comment. -/
inductive JValue where
  | null
  | bool (b : Bool)
  | num (n : Int)
  | str (s : String)
  | arr (elems : List JValue)
  | obj (fields : List (String × JValue))

/-- A JSON object (`QJsonObject`): an association list of fields. -/
abbrev JObj := List (String × JValue)

/-- First-match association-list lookup (`QJsonObject::value` resp.
`QMap::value` without default). -/
def assocLookup {α : Type} : List (String × α) → String → Option α
  | [], _ => none
  | (k', v) :: rest, k => if k' = k then some v else assocLookup rest k

/-- Model of `QMap::insert` / `QJsonObject::insert`: replace the entry with an equal
key, else add the new entry. -/
def assocInsert {α : Type} : List (String × α) → String → α → List (String × α)
  | [], k, v => [(k, v)]
  | (k', v') :: rest, k, v =>
      if k' = k then (k, v) :: rest else (k', v') :: assocInsert rest k v

/-- Model of `QJsonObject::value(key)`: `Undefined` (modelled as `null`) when the key
is absent. -/
def jlookup (o : JObj) (k : String) : JValue := (assocLookup o k).getD JValue.null

/-- Model of `QJsonObject::contains(key)`. -/
def jcontains (o : JObj) (k : String) : Bool := (assocLookup o k).isSome

/-- Model of `QJsonValue::toString()`: the string for string values, the empty string
otherwise. -/
def JValue.toQString : JValue → String
  | .str s => s
  | _ => ""

/-- Model of `QJsonValue::toObject()`: the fields for object values, the empty object
otherwise. -/
def JValue.toObject : JValue → JObj
  | .obj fields => fields
  | _ => []

/-- Model of `QJsonValue::toArray()`: the elements for array values, the empty array
otherwise. -/
def JValue.toArray : JValue → List JValue
  | .arr elems => elems
  | _ => []

/-- Model of `QJsonValue::toInt(defaultValue)`: the number for numeric values, the
default otherwise. -/
def JValue.toIntD : JValue → Int → Int
  | .num n, _ => n
  | _, d => d

/-- A decimal digit's value, else `none`. -/
def digitVal (c : Char) : Option Nat :=
  if '0' ≤ c ∧ c ≤ '9' then some (c.toNat - '0'.toNat) else none

/-- Accumulator pass of decimal parsing: fails on the first non-digit. -/
def digitsToNat : List Char → Nat → Option Nat
  | [], acc => some acc
  | c :: rest, acc =>
      match digitVal c with
      | none => none
      | some d => digitsToNat rest (acc * 10 + d)

/-- Model of `QString::toInt()`: optional sign then decimal digits, `0` on any parse
failure (a model of the Qt library routine; no claim evaluates it). -/
def strToIntQ (s : String) : Int :=
  match s.data with
  | '-' :: rest => -(Int.ofNat ((digitsToNat rest 0).getD 0))
  | '+' :: rest => Int.ofNat ((digitsToNat rest 0).getD 0)
  | l => Int.ofNat ((digitsToNat l 0).getD 0)

/-- Model of `QJsonValue::toVariant().toInt()`: numbers convert directly, strings are
parsed, booleans become 0/1, everything else converts to 0. -/
def JValue.toVariantInt : JValue → Int
  | .num n => n
  | .str s => strToIntQ s
  | .bool b => if b then 1 else 0
  | _ => 0

/-- Model of `QPoint`. -/
structure QPoint where
  x : Int
  y : Int
deriving DecidableEq, Repr

/-- A decoded raster image (`QImage`): the engine only ever reads its
dimensions. -/
structure Image where
  width : Int
  height : Int
deriving DecidableEq, Repr

/-- Modelled from the spec: `MAX_PIVOTS` is declared in the missing header
`projectmodel.h`; the spec (§3, §8) fixes it at 4. -/
def MAX_PIVOTS : Nat := 4

/-- Model of `Part::Mode` (declared in the missing header; fields exactly as read and
written by `projectmodel.cpp`).  `pivots` models the fixed array of
`MAX_PIVOTS` point sequences. -/
structure Mode where
  width : Int
  height : Int
  numFrames : Int
  numPivots : Int
  framesPerSecond : Int
  frames : List Image
  anchor : List QPoint
  pivots : List (List QPoint)
deriving DecidableEq, Repr

/-- Model of `Folder`. -/
structure Folder where
  ref : AssetRef
  name : String
  parent : AssetRef
deriving DecidableEq, Repr

/-- Model of `Part`. -/
structure Part where
  ref : AssetRef
  name : String
  parent : AssetRef
  properties : String
  modes : List (String × Mode)
deriving DecidableEq, Repr

/-- Model of `Composite::Child` — exactly the fields `projectmodel.cpp` reads and
writes (`parent`, `parentPivot`, `z`, `part`, `index`, `children`; the code
never accesses a name field on `Child`, child names live in
`Composite::children` and as `childrenMap` keys). -/
structure Child where
  parent : Int
  parentPivot : Int
  z : Int
  part : AssetRef
  index : Int
  children : List Int
deriving DecidableEq, Repr

/-- A value-initialized `Child`, as produced by `QMap::value` on a missing
key: zeroed ints, null ref, empty list. -/
def defaultChild : Child :=
  { parent := 0, parentPivot := 0, z := 0, part := nullRef, index := 0, children := [] }

/-- Model of `Composite`. -/
structure Composite where
  ref : AssetRef
  root : Int
  name : String
  properties : String
  parent : AssetRef
  children : List String
  childrenMap : List (String × Child)
deriving DecidableEq, Repr

/-! ## Asset mappers (`JsonToFolder` / `FolderToJson`, `JsonToPart`,
`CompositeToJson` / `JsonToComposite`)

The C++ mappers mutate an out-parameter whose `ref` the caller has already
set; here they take that `ref` and return the built value. -/

/-- Model of `ProjectModel::JsonToFolder`, projectmodel.cpp lines 443-451. -/
def JsonToFolder (obj : JObj) (ref : AssetRef) : Folder :=
  { ref := ref
    name := (jlookup obj "name").toQString
    parent :=
      if jcontains obj "parent" then
        { uuid := (jlookup obj "parent").toQString, type := AssetType.Folder }
      else nullRef }

/-- Model of `ProjectModel::FolderToJson`, projectmodel.cpp lines 453-459. -/
def FolderToJson (name : String) (folder : Folder) : JObj :=
  [("name", JValue.str name)] ++
    (if folder.parent.isNull then [] else [("parent", JValue.str folder.parent.uuid)])

/-- The abnormal exits of `ProjectModel::JsonToPart` (assertion failures and
the null-image dereference), each of which aborts the process. -/
inductive PartFail where
  | nullImageDeref (name : String)
  | frameCountAssert
  | dimensionAssert
  | pivotIndexAssert
deriving DecidableEq, Repr

/-- The pivot point appended for pivot slot `p` while decoding one frame
record: slots below `numPivots` read `p{i}x` / `p{i}y` from the record,
slots from `numPivots` up to `MAX_PIVOTS` are zero-filled (projectmodel.cpp
lines 504-511). -/
def pivotPoint (numPivots : Int) (fo : JObj) (p : Nat) : QPoint :=
  if (p : Int) < numPivots then
    { x := (jlookup fo ("p" ++ toString p ++ "x")).toVariantInt
      y := (jlookup fo ("p" ++ toString p ++ "y")).toVariantInt }
  else { x := 0, y := 0 }

/-- Append one point (chosen per slot index, starting at `start`) to each
pivot sequence: the per-frame `m.pivots[p].push_back(...)` loops. -/
def pushPivotsFrom (start : Nat) : List (List QPoint) → (Nat → QPoint) → List (List QPoint)
  | [], _ => []
  | s :: rest, f => (s ++ [f start]) :: pushPivotsFrom (start + 1) rest f

/-- Accumulated per-frame state of mode decoding. -/
structure FrameAcc where
  anchor : List QPoint
  frames : List Image
  pivots : List (List QPoint)
deriving DecidableEq, Repr

/-- Decoding of one frame record (the body of the frame loop,
projectmodel.cpp lines 489-512).  A frame whose image name is not in the
image map dereferences a null `QSharedPointer` (`image->height()` precedes
`Q_ASSERT(image)`); `numPivots` outside `[0, MAX_PIVOTS]` makes the pivot
loops index outside the fixed `pivots` array.  Both abort. -/
def processFrame (width height numPivots : Int) (imageMap : List (String × Image))
    (acc : FrameAcc) (fv : JValue) : Except PartFail FrameAcc :=
  let fo := fv.toObject
  let ax := (jlookup fo "ax").toVariantInt
  let ay := (jlookup fo "ay").toVariantInt
  let imageName := (jlookup fo "image").toQString
  match assocLookup imageMap imageName with
  | none => .error (.nullImageDeref imageName)
  | some image =>
      if ¬ (image.width = width ∧ image.height = height) then .error .dimensionAssert
      else if numPivots < 0 ∨ (MAX_PIVOTS : Int) < numPivots then .error .pivotIndexAssert
      else .ok
        { anchor := acc.anchor ++ [{ x := ax, y := ay }]
          frames := acc.frames ++ [image]
          pivots := pushPivotsFrom 0 acc.pivots (pivotPoint numPivots fo) }

/-- The frame loop of `JsonToPart`. -/
def processFrames (width height numPivots : Int) (imageMap : List (String × Image)) :
    List JValue → FrameAcc → Except PartFail FrameAcc
  | [], acc => .ok acc
  | fv :: rest, acc =>
      match processFrame width height numPivots imageMap acc fv with
      | .error e => .error e
      | .ok acc' => processFrames width height numPivots imageMap rest acc'

/-- Decoding of one animation-mode record (projectmodel.cpp lines 479-512):
the five integer fields, then `Q_ASSERT(frameArray.count()==m.numFrames)`,
then the frame loop. -/
def jsonToMode (mo : JObj) (imageMap : List (String × Image)) : Except PartFail Mode :=
  let width := (jlookup mo "width").toIntD 0
  let height := (jlookup mo "height").toIntD 0
  let numFrames := (jlookup mo "numFrames").toIntD 0
  let numPivots := (jlookup mo "numPivots").toIntD 0
  let framesPerSecond := (jlookup mo "framesPerSecond").toIntD 0
  let frameArray := (jlookup mo "frames").toArray
  if ¬ ((frameArray.length : Int) = numFrames) then .error .frameCountAssert
  else
    match processFrames width height numPivots imageMap frameArray
        { anchor := [], frames := [], pivots := List.replicate MAX_PIVOTS [] } with
    | .error e => .error e
    | .ok acc => .ok
        { width := width, height := height, numFrames := numFrames
          numPivots := numPivots, framesPerSecond := framesPerSecond
          frames := acc.frames, anchor := acc.anchor, pivots := acc.pivots }

/-- The field loop of `JsonToPart` (projectmodel.cpp lines 469-516): the key
`"properties"` sets the properties string; every other key whose value
converts to a non-empty JSON object is decoded as a mode; the rest (for
example the string-valued `"name"` and `"parent"`, whose `toObject()` is
empty) are skipped. -/
def partFields (imageMap : List (String × Image)) :
    List (String × JValue) → String → List (String × Mode) →
      Except PartFail (String × List (String × Mode))
  | [], props, modes => .ok (props, modes)
  | (k, v) :: rest, props, modes =>
      if k = "properties" then partFields imageMap rest v.toQString modes
      else
        let mo := v.toObject
        if mo.isEmpty then partFields imageMap rest props modes
        else
          match jsonToMode mo imageMap with
          | .error e => .error e
          | .ok m => partFields imageMap rest props (assocInsert modes k m)

/-- Model of `ProjectModel::JsonToPart`, projectmodel.cpp lines 461-517.  The caller
(`load`) has set `ref` and `properties = ""` beforehand. -/
def JsonToPart (obj : JObj) (imageMap : List (String × Image)) (ref : AssetRef) :
    Except PartFail Part :=
  match partFields imageMap obj "" [] with
  | .error e => .error e
  | .ok (props, modes) => .ok
      { ref := ref
        name := (jlookup obj "name").toQString
        parent :=
          if jcontains obj "parent" then
            { uuid := (jlookup obj "parent").toQString, type := AssetType.Folder }
          else nullRef
        properties := props
        modes := modes }

/-- Model of `QString::replace(' ', '_')`: space-to-underscore name normalization. -/
def fixName (s : String) : String :=
  String.mk (s.data.map (fun c => if c = ' ' then '_' else c))

/-- One child record of `CompositeToJson` (projectmodel.cpp lines 589-608);
`QMap::value` yields a value-initialized `Child` for a name missing from
`childrenMap`. -/
def childToJson (comp : Composite) (childName : String) : JObj :=
  let child := (assocLookup comp.childrenMap childName).getD defaultChild
  [("name", JValue.str (fixName childName)),
   ("parent", JValue.num child.parent),
   ("parentPivot", JValue.num child.parentPivot),
   ("z", JValue.num child.z),
   ("part", JValue.str child.part.uuid),
   ("children", JValue.arr (child.children.map JValue.num))]

/-- Model of `ProjectModel::CompositeToJson`, projectmodel.cpp lines 579-611. -/
def CompositeToJson (name : String) (comp : Composite) : JObj :=
  [("root", JValue.num comp.root),
   ("properties", JValue.str comp.properties),
   ("name", JValue.str name)] ++
    (if comp.parent.isNull then [] else [("parent", JValue.str comp.parent.uuid)]) ++
    [("parts", JValue.arr (comp.children.map (fun n => JValue.obj (childToJson comp n))))]

/-- The name a composite child record carries. -/
def childNameOf (v : JValue) : String := (jlookup v.toObject "name").toQString

/-- One child of `JsonToComposite` (projectmodel.cpp lines 626-641), given
its document-order index. -/
def jsonToChild (v : JValue) (index : Int) : Child :=
  let co := v.toObject
  { parent := (jlookup co "parent").toVariantInt
    parentPivot := (jlookup co "parentPivot").toVariantInt
    z := (jlookup co "z").toVariantInt
    part := { uuid := (jlookup co "part").toQString, type := AssetType.Part }
    index := index
    children := (jlookup co "children").toArray.map JValue.toVariantInt }

/-- The `childrenMap` built by the child loop of `JsonToComposite`:
`comp->childrenMap.insert(name, child)` in document order, with `index`
counting up from `start`. -/
def buildChildrenMapFrom (start : Int) :
    List JValue → List (String × Child) → List (String × Child)
  | [], m => m
  | v :: rest, m =>
      buildChildrenMapFrom (start + 1) rest
        (assocInsert m (childNameOf v) (jsonToChild v start))

/-- Model of `ProjectModel::JsonToComposite`, projectmodel.cpp lines 613-646.  The
loop appends every entry's name to `children` and inserts the decoded child
under that name. -/
def JsonToComposite (obj : JObj) (ref : AssetRef) : Composite :=
  let vals := (jlookup obj "parts").toArray
  { ref := ref
    root := (jlookup obj "root").toVariantInt
    name := (jlookup obj "name").toQString
    properties := (jlookup obj "properties").toQString
    parent :=
      if jcontains obj "parent" then
        { uuid := (jlookup obj "parent").toQString, type := AssetType.Folder }
      else nullRef
    children := vals.map childNameOf
    childrenMap := buildChildrenMapFrom 0 vals [] }

/-! ## The asset registry (`ProjectModel`) and `load` / `save` -/

/-- The registry state: the three identity-keyed collections plus the
remembered file name. -/
structure ProjectModel where
  folders : List (AssetRef × Folder)
  parts : List (AssetRef × Part)
  composites : List (AssetRef × Composite)
  fileName : String
deriving DecidableEq, Repr

/-- Model of `ProjectModel::clear`, projectmodel.cpp lines 135-140. -/
def ProjectModel.clear (_pm : ProjectModel) : ProjectModel :=
  { folders := [], parts := [], composites := [], fileName := "" }

/-- Insertion into a registry collection keyed by `AssetRef` under the
custom `operator==` (replace on an equal key, else add). -/
def refInsert {α : Type} : List (AssetRef × α) → AssetRef → α → List (AssetRef × α)
  | [], k, v => [(k, v)]
  | (k', v') :: rest, k, v =>
      if refEq k' k then (k, v) :: rest else (k', v') :: refInsert rest k v

/-- A record inside the tar archive: its byte buffer (`buffer`/`length`). -/
structure TarRecord where
  buffer : List Nat
deriving DecidableEq, Repr

/-- The outcome of opening and untarring the project file: the stream fails
to open, the tarball fails to read, or an ordered record map is produced. -/
inductive LoadFile where
  | cantOpen
  | badTar
  | tar (fileMap : List (String × TarRecord))
deriving Repr

/-- The observable result of `ProjectModel::load`: `ok` (returns true),
`failed reason` (returns false with the reason out-parameter set), or
`crashed` (a `Q_ASSERT` fired or a null image pointer was dereferenced, so
control never returns). -/
inductive LoadOutcome where
  | ok
  | failed (reason : String)
  | crashed
deriving DecidableEq, Repr

/-- Model of `static const int PROJECT_SAVE_FILE_VERSION = 1;` (projectmodel.cpp
line 27). -/
def PROJECT_SAVE_FILE_VERSION : Int := 1

/-- The NUL-truncation loop over the `data.json` buffer (projectmodel.cpp
lines 165-171): the index of the first NUL byte, and 0 when the buffer
holds no NUL at all. -/
def dataLengthOf (buf : List Nat) : Nat := (buf.findIdx? (fun b => b == 0)).getD 0

/-- Model of `".png"` suffix test (`QString::endsWith`). -/
def endsWithPng (s : String) : Bool := List.isSuffixOf ".png".data s.data

/-- The image-loading loop (projectmodel.cpp lines 240-251): decode every
record whose name ends in `.png` into the name-to-image map;
`Q_ASSERT(res)` makes a decode failure fatal. -/
def buildImageMap (decodeImage : List Nat → Option Image) :
    List (String × TarRecord) → List (String × Image) → Option (List (String × Image))
  | [], m => some m
  | (name, record) :: rest, m =>
      if endsWithPng name then
        match decodeImage record.buffer with
        | none => none
        | some img => buildImageMap decodeImage rest (assocInsert m name img)
      else buildImageMap decodeImage rest m

/-- The folder loop of `load` (projectmodel.cpp lines 259-269): build each
folder from its record with the uuid key, insert into the registry. -/
def loadFolders (pm : ProjectModel) : List (String × JValue) → ProjectModel
  | [] => pm
  | (uuid, v) :: rest =>
      let folder := JsonToFolder v.toObject { uuid := uuid, type := AssetType.Folder }
      loadFolders { pm with folders := refInsert pm.folders folder.ref folder } rest

/-- The part loop of `load` (projectmodel.cpp lines 271-282).  The Bool is
true when `JsonToPart` aborted. -/
def loadParts (imageMap : List (String × Image)) (pm : ProjectModel) :
    List (String × JValue) → ProjectModel × Bool
  | [] => (pm, false)
  | (uuid, v) :: rest =>
      match JsonToPart v.toObject imageMap { uuid := uuid, type := AssetType.Part } with
      | .error _ => (pm, true)
      | .ok part => loadParts imageMap { pm with parts := refInsert pm.parts part.ref part } rest

/-- The composite loop of `load` (projectmodel.cpp lines 284-295). -/
def loadComposites (pm : ProjectModel) : List (String × JValue) → ProjectModel
  | [] => pm
  | (uuid, v) :: rest =>
      let comp := JsonToComposite v.toObject { uuid := uuid, type := AssetType.Composite }
      loadComposites { pm with composites := refInsert pm.composites comp.ref comp } rest

/-- Model of `ProjectModel::load`, projectmodel.cpp lines 142-300.  `parse` models
`QJsonDocument::fromJson` (with its error string) and `decodeImage` models
`QImage::loadFromData`; both are external collaborators, so theorems
quantify over them.  The `prefs.json` block (lines 201-236) writes only to
the external `QSettings` store and never touches the registry, so it has no
footprint in this state model. -/
def load (parse : List Nat → Except String JValue) (decodeImage : List Nat → Option Image)
    (pm : ProjectModel) (fileName : String) (file : LoadFile) :
    LoadOutcome × ProjectModel :=
  match file with
  | .cantOpen => (.failed "Cannot open file", pm)
  | .badTar => (.failed "Cannot read project file", pm)
  | .tar fileMap =>
    match assocLookup fileMap "data.json" with
    | none => (.failed "Internal data.json is missing", pm)
    | some dataRec =>
      let dataLength := dataLengthOf dataRec.buffer
      if dataLength = 0 then (.failed "Internal data.json is empty", pm)
      else
        match parse (dataRec.buffer.take dataLength) with
        | .error e => (.failed ("Internal data.json parse error: " ++ e), pm)
        | .ok doc =>
          match doc with
          | .obj dataObj =>
            if jcontains dataObj "version" then
              if (jlookup dataObj "version").toIntD 0 = PROJECT_SAVE_FILE_VERSION then
                match buildImageMap decodeImage fileMap [] with
                | none => (.crashed, pm)
                | some imageMap =>
                  let pm1 := loadFolders pm (jlookup dataObj "folders").toObject
                  match loadParts imageMap pm1 (jlookup dataObj "parts").toObject with
                  | (pm2, true) => (.crashed, pm2)
                  | (pm2, false) =>
                    let pm3 := loadComposites pm2 (jlookup dataObj "comps").toObject
                    (.ok, { pm3 with fileName := fileName })
              else (.failed "Internal data.json has an invalid version", pm)
            else (.failed "Internal data.json has no version field", pm)
          | _ => (.failed "Internal data.json is not a valid json object", pm)

/-- Model of `ProjectModel::save`, projectmodel.cpp lines 302-305: the body is
`qDebug() << "TODO: Implement saving of layers "; return false;` — the
document/image building code below it is commented out.  The middle
component models what is written to disk (`none`: nothing). -/
def save (pm : ProjectModel) (_fileName : String) :
    Bool × Option (List (String × TarRecord)) × ProjectModel :=
  (false, none, pm)

/-! ## Value equality (field-wise, with `AssetRef`'s custom `operator==`)
and the §3 invariants used by the round-trip claim -/

/-- Field-wise `Folder` equality, refs compared by `operator==`. -/
abbrev folderEq (a b : Folder) : Prop :=
  refEq a.ref b.ref ∧ a.name = b.name ∧ refEq a.parent b.parent

/-- Field-wise `Child` equality, the part ref compared by `operator==`. -/
abbrev childEq (a b : Child) : Prop :=
  a.parent = b.parent ∧ a.parentPivot = b.parentPivot ∧ a.z = b.z ∧
    refEq a.part b.part ∧ a.index = b.index ∧ a.children = b.children

/-- Equality of optional children (for comparing map lookups). -/
def childOptEq : Option Child → Option Child → Prop
  | none, none => True
  | some a, some b => childEq a b
  | _, _ => False

/-- Field-wise `Composite` equality: the keyed `childrenMap`s are compared
as maps, by lookup. -/
def compositeEq (a b : Composite) : Prop :=
  refEq a.ref b.ref ∧ a.root = b.root ∧ a.name = b.name ∧
    a.properties = b.properties ∧ refEq a.parent b.parent ∧
    a.children = b.children ∧
    ∀ n : String, childOptEq (assocLookup a.childrenMap n) (assocLookup b.childrenMap n)

/-- The §3 invariants of a `Composite`, plus the normalization condition the
round-trip needs: `children` and `childrenMap` in sync, `index` equal to the
document-order position, part refs tagged `Part` (or null), the folder
parent tagged `Folder` (or null), and child names fixed by space
normalization. -/
abbrev CompInv (c : Composite) : Prop :=
  c.children.Nodup ∧
  (∀ n ∈ c.children, fixName n = n) ∧
  (∀ i (h : i < c.children.length),
    (assocLookup c.childrenMap (c.children.get ⟨i, h⟩)).map Child.index =
      some ((i : Int))) ∧
  (∀ e ∈ c.childrenMap, e.1 ∈ c.children) ∧
  (∀ e ∈ c.childrenMap, e.2.part.isNull = true ∨ e.2.part.type = AssetType.Part) ∧
  (c.parent.isNull = true ∨ c.parent.type = AssetType.Folder)

/-! ## General lemmas about the association-list operations -/

theorem refEq_refl (a : AssetRef) : refEq a a := Or.inr ⟨rfl, rfl⟩

theorem refEq_symm {a b : AssetRef} (h : refEq a b) : refEq b a := by
  rcases h with ⟨h1, h2⟩ | ⟨h1, h2⟩
  · exact Or.inl ⟨h2, h1⟩
  · exact Or.inr ⟨h1.symm, h2.symm⟩

theorem refEq_trans {a b c : AssetRef} (h1 : refEq a b) (h2 : refEq b c) : refEq a c := by
  rcases h1 with ⟨x1, x2⟩ | ⟨x1, x2⟩ <;> rcases h2 with ⟨y1, y2⟩ | ⟨y1, y2⟩
  · exact Or.inl ⟨x1, y2⟩
  · exact Or.inl ⟨x1, y1 ▸ x2⟩
  · exact Or.inl ⟨x1.trans y1, y2⟩
  · exact Or.inr ⟨x1.trans y1, x2.trans y2⟩

theorem assocLookup_mem {α : Type} {m : List (String × α)} {k : String} {v : α}
    (h : assocLookup m k = some v) : (k, v) ∈ m := by
  induction m with
  | nil => simp [assocLookup] at h
  | cons e rest ih =>
      obtain ⟨k', v'⟩ := e
      by_cases hk : k' = k
      · subst hk
        simp [assocLookup] at h
        subst h
        exact List.mem_cons_self _ _
      · simp [assocLookup, hk] at h
        exact List.mem_cons_of_mem _ (ih h)

theorem assocLookup_eq_none {α : Type} {m : List (String × α)} {k : String}
    (h : k ∉ m.map Prod.fst) : assocLookup m k = none := by
  induction m with
  | nil => rfl
  | cons e rest ih =>
      obtain ⟨k', v'⟩ := e
      simp only [List.map_cons, List.mem_cons] at h
      push_neg at h
      have hk : k' ≠ k := fun hh => h.1 hh.symm
      simp [assocLookup, hk, ih h.2]

theorem assocInsert_of_fresh {α : Type} {m : List (String × α)} {k : String} (v : α)
    (h : ∀ e ∈ m, e.1 ≠ k) : assocInsert m k v = m ++ [(k, v)] := by
  induction m with
  | nil => rfl
  | cons e rest ih =>
      obtain ⟨k', v'⟩ := e
      have hk : k' ≠ k := h (k', v') (List.mem_cons_self _ _)
      simp [assocInsert, hk, ih (fun e he => h e (List.mem_cons_of_mem _ he))]

theorem refInsert_mem {α : Type} {m : List (AssetRef × α)} {e : AssetRef × α}
    (k : AssetRef) (v : α) (he : e ∈ m) (hne : ¬ refEq k e.1) :
    e ∈ refInsert m k v := by
  induction m with
  | nil => cases he
  | cons hd rest ih =>
      obtain ⟨k', v'⟩ := hd
      by_cases hk : refEq k' k
      · rcases List.mem_cons.mp he with h1 | hmem
        · have : refEq k e.1 := by
            rw [h1]
            exact refEq_symm hk
          exact absurd this hne
        · simp only [refInsert, if_pos hk]
          exact List.mem_cons_of_mem _ hmem
      · rcases List.mem_cons.mp he with h1 | hmem
        · simp only [refInsert, if_neg hk]
          exact h1 ▸ List.mem_cons_self _ _
        · simp only [refInsert, if_neg hk]
          exact List.mem_cons_of_mem _ (ih hmem)

theorem refInsert_exists {α : Type} (m : List (AssetRef × α)) (k : AssetRef) (v : α) :
    ∃ e ∈ refInsert m k v, refEq e.1 k := by
  induction m with
  | nil => exact ⟨(k, v), List.mem_singleton.mpr rfl, refEq_refl k⟩
  | cons hd rest ih =>
      obtain ⟨k', v'⟩ := hd
      by_cases hk : refEq k' k
      · exact ⟨(k, v), by simp [refInsert, hk], refEq_refl k⟩
      · obtain ⟨e, hmem, heq⟩ := ih
        exact ⟨e, by simp [refInsert, hk, hmem], heq⟩

theorem refInsert_exists_pres {α : Type} {m : List (AssetRef × α)} {k0 : AssetRef}
    (k : AssetRef) (v : α) (h : ∃ e ∈ m, refEq e.1 k0) :
    ∃ e ∈ refInsert m k v, refEq e.1 k0 := by
  induction m with
  | nil => rcases h with ⟨e, he, _⟩; cases he
  | cons hd rest ih =>
      obtain ⟨k', v'⟩ := hd
      rcases h with ⟨e, he, heq⟩
      by_cases hk : refEq k' k
      · simp only [refInsert, if_pos hk]
        rcases List.mem_cons.mp he with h1 | hmem
        · refine ⟨(k, v), List.mem_cons_self _ _, ?_⟩
          have hq : refEq k' k0 := by
            rw [h1] at heq
            exact heq
          exact refEq_trans (refEq_symm hk) hq
        · exact ⟨e, List.mem_cons_of_mem _ hmem, heq⟩
      · simp only [refInsert, if_neg hk]
        rcases List.mem_cons.mp he with h1 | hmem
        · exact ⟨(k', v'), List.mem_cons_self _ _, by rw [h1] at heq; exact heq⟩
        · obtain ⟨e2, hmem2, heq2⟩ := ih ⟨e, hmem, heq⟩
          exact ⟨e2, List.mem_cons_of_mem _ hmem2, heq2⟩

theorem list_map_self {α : Type} {l : List α} {f : α → α} (h : ∀ x ∈ l, f x = x) :
    l.map f = l := by
  induction l with
  | nil => rfl
  | cons x rest ih =>
      simp [h x (List.mem_cons_self _ _), ih (fun y hy => h y (List.mem_cons_of_mem _ hy))]

theorem str_append_ne_empty (s t : String) (hs : s ≠ "") : s ++ t ≠ "" := by
  intro h
  apply hs
  cases s with
  | mk ds =>
    cases t with
    | mk dt =>
      have h2 : ds ++ dt = ([] : List Char) := congrArg String.data h
      have h3 : ds = [] := (List.append_eq_nil.mp h2).1
      rw [h3]

/-! ## Small lemmas about the JSON accessors -/

theorem toIntD_eq_of_not_num {v : JValue} (d : Int) (h : ∀ n : Int, v ≠ JValue.num n) :
    v.toIntD d = d := by
  cases v <;> first | rfl | exact absurd rfl (h _)

theorem jcontains_of_num {o : JObj} {k : String} {n : Int}
    (h : jlookup o k = JValue.num n) : jcontains o k = true := by
  unfold jlookup at h
  unfold jcontains
  cases hl : assocLookup o k with
  | none =>
      rw [hl] at h
      exact JValue.noConfusion h
  | some x => rfl

/-! ## Concrete fixtures for the witnesses and counterexamples -/

/-- A one-folder prior registry state. -/
def pmPrior : ProjectModel :=
  { folders := [({ uuid := "u1", type := AssetType.Folder },
      { ref := { uuid := "u1", type := AssetType.Folder }, name := "Old", parent := nullRef })]
    parts := [], composites := [], fileName := "old.mqs" }

/-- The empty registry state. -/
def emptyPM : ProjectModel := { folders := [], parts := [], composites := [], fileName := "" }

/-- A tar archive holding only `data.json` with buffer `'1', NUL`. -/
def tarData : LoadFile := LoadFile.tar [("data.json", { buffer := [49, 0] })]

/-- A version-1 document carrying one folder record keyed `"u2"`. -/
def docNewFolder : JValue :=
  JValue.obj [("version", JValue.num 1),
    ("folders", JValue.obj [("u2", JValue.obj [("name", JValue.str "New")])])]

/-- A JSON parser stub returning a fixed document. -/
def parseTo (v : JValue) : List Nat → Except String JValue := fun _ => Except.ok v

/-- An image decoder stub that always fails. -/
def noImage : List Nat → Option Image := fun _ => none

/-! ## C1 -/

/-- C1: for every file, collaborator behaviour and prior registry state, if
`load` fails at any step (file unopenable, archive unreadable, `data.json`
missing or empty, JSON parse error, not an object, version missing or
wrong), the registry — folders, parts, composites and remembered file
name — is exactly as before the call, and the reason string is non-empty
(human-readable). -/
theorem load_failure_leaves_registry_untouched
    (parse : List Nat → Except String JValue) (decodeImage : List Nat → Option Image)
    (pm : ProjectModel) (path : String) (file : LoadFile) (r : String) (pm2 : ProjectModel)
    (h : load parse decodeImage pm path file = (.failed r, pm2)) :
    pm2 = pm ∧ r ≠ "" := by
  cases file with
  | cantOpen =>
      simp only [load] at h
      injection h with h1 h2
      injection h1 with hr
      subst hr
      exact ⟨h2.symm, by decide⟩
  | badTar =>
      simp only [load] at h
      injection h with h1 h2
      injection h1 with hr
      subst hr
      exact ⟨h2.symm, by decide⟩
  | tar fm =>
      simp only [load] at h
      repeat' split at h
      all_goals injection h with h1 h2
      all_goals try (exact LoadOutcome.noConfusion h1)
      all_goals injection h1 with hr
      all_goals subst hr
      all_goals refine ⟨h2.symm, ?_⟩
      all_goals first
        | decide
        | exact str_append_ne_empty _ _ (by decide)

/-- Witness for C1: a file that cannot be opened, against the empty
registry. -/
theorem load_failure_witness : emptyPM = emptyPM ∧ "Cannot open file" ≠ "" :=
  load_failure_leaves_registry_untouched (parseTo docNewFolder) noImage emptyPM "p"
    LoadFile.cantOpen "Cannot open file" emptyPM rfl

/-! ## C3 -/

/-- C3 (counterexample): `save` does not return success and writes nothing,
already on this concrete one-folder registry. -/
theorem save_claim_counterexample :
    (save pmPrior "proj.mqs").1 = false ∧ (save pmPrior "proj.mqs").2.1 = none :=
  ⟨rfl, rfl⟩

/-- C3 (amended): `save` is an unimplemented stub — for every registry state
and path it returns failure, writes no archive, and leaves the registry
(including the remembered file name) unchanged; the document and image-set
building code is present only in a commented-out block. -/
theorem save_returns_failure_without_writing (pm : ProjectModel) (path : String) :
    save pm path = (false, none, pm) := rfl

/-! ## C4 -/

/-- C4: once the tar and `data.json` record stages succeed and the record
parses to a JSON object, a `version` field that is absent, non-numeric, or
numeric but different from the supported version constant 1 makes `load`
fail with the corresponding schema reason, with the registry returned
exactly as it was (no folder, part or composite added). -/
theorem version_gate_rejects
    (parse : List Nat → Except String JValue) (decodeImage : List Nat → Option Image)
    (pm : ProjectModel) (path : String) (fm : List (String × TarRecord))
    (dataRec : TarRecord) (dataObj : JObj)
    (hrec : assocLookup fm "data.json" = some dataRec)
    (hlen : dataLengthOf dataRec.buffer ≠ 0)
    (hparse : parse (dataRec.buffer.take (dataLengthOf dataRec.buffer)) =
      Except.ok (JValue.obj dataObj))
    (hver : assocLookup dataObj "version" = none
          ∨ (∀ n : Int, jlookup dataObj "version" ≠ JValue.num n)
          ∨ ∃ n : Int, jlookup dataObj "version" = JValue.num n ∧ n ≠ 1) :
    ∃ r, load parse decodeImage pm path (.tar fm) = (.failed r, pm) ∧
      (r = "Internal data.json has no version field" ∨
       r = "Internal data.json has an invalid version") := by
  simp only [load, hrec, if_neg hlen, hparse]
  rcases hver with hv | hv | ⟨n, hv, hn⟩
  · have hc : jcontains dataObj "version" = false := by
      unfold jcontains
      rw [hv]
      rfl
    rw [hc]
    exact ⟨_, rfl, Or.inl rfl⟩
  · cases hc : jcontains dataObj "version" with
    | false =>
        exact ⟨_, rfl, Or.inl rfl⟩
    | true =>
        have h0 : (jlookup dataObj "version").toIntD 0 = 0 := toIntD_eq_of_not_num 0 hv
        rw [h0]
        simp only [PROJECT_SAVE_FILE_VERSION]
        rw [if_neg (show ¬ ((0 : Int) = 1) by decide)]
        exact ⟨_, rfl, Or.inr rfl⟩
  · rw [jcontains_of_num hv, hv]
    simp only [JValue.toIntD, PROJECT_SAVE_FILE_VERSION, if_neg hn]
    exact ⟨_, rfl, Or.inr rfl⟩

/-- Witness for C4: a well-formed archive whose document is an object with
no `version` field. -/
theorem version_gate_witness :
    (assocLookup [("data.json", TarRecord.mk [49, 0])] "data.json" =
        some (TarRecord.mk [49, 0])) ∧
    (dataLengthOf (TarRecord.mk [49, 0]).buffer ≠ 0) ∧
    (∃ r, load (parseTo (JValue.obj [])) noImage emptyPM "p"
        (.tar [("data.json", TarRecord.mk [49, 0])]) = (.failed r, emptyPM) ∧
      (r = "Internal data.json has no version field" ∨
       r = "Internal data.json has an invalid version")) :=
  ⟨rfl, by decide,
    version_gate_rejects (parseTo (JValue.obj [])) noImage emptyPM "p"
      [("data.json", TarRecord.mk [49, 0])] (TarRecord.mk [49, 0]) []
      rfl (by decide) rfl (Or.inl rfl)⟩

/-! ## C6 -/

/-- The part record of the C6 failing input: one mode `"Idle"` with a single
frame whose image name resolves to nothing. -/
def partObjMissingImage : JObj :=
  [("name", JValue.str "P"),
   ("Idle", JValue.obj
     [("width", JValue.num 1), ("height", JValue.num 1), ("numFrames", JValue.num 1),
      ("numPivots", JValue.num 0), ("framesPerSecond", JValue.num 8),
      ("frames", JValue.arr [JValue.obj
        [("ax", JValue.num 0), ("ay", JValue.num 0),
         ("image", JValue.str "missing.png")]])])]

/-- C6: at the failing input (a frame whose `image` name is absent from the
image map), `JsonToPart` terminates abnormally by dereferencing the null
image handle (`image->height()` runs before `Q_ASSERT(image)`); no
`MissingImage`-style error value is ever returned to `load`, whose reason
out-parameter has no path for it. -/
theorem missing_image_null_deref :
    JsonToPart partObjMissingImage [] { uuid := "u", type := AssetType.Part } =
      .error (.nullImageDeref "missing.png") := rfl

/-! ## C2: how the load loops transform the registry -/

theorem loadFolders_keeps (l : List (String × JValue)) (pm : ProjectModel) :
    (loadFolders pm l).parts = pm.parts ∧ (loadFolders pm l).composites = pm.composites := by
  induction l generalizing pm with
  | nil => exact ⟨rfl, rfl⟩
  | cons hd rest ih =>
      obtain ⟨uuid, v⟩ := hd
      simp only [loadFolders]
      exact ih _

theorem loadParts_keeps (im : List (String × Image)) (l : List (String × JValue))
    (pm : ProjectModel) :
    (loadParts im pm l).1.folders = pm.folders ∧
    (loadParts im pm l).1.composites = pm.composites := by
  induction l generalizing pm with
  | nil => exact ⟨rfl, rfl⟩
  | cons hd rest ih =>
      obtain ⟨uuid, v⟩ := hd
      simp only [loadParts]
      cases JsonToPart v.toObject im { uuid := uuid, type := AssetType.Part } with
      | error er => exact ⟨rfl, rfl⟩
      | ok part => exact ih _

theorem loadComposites_keeps (l : List (String × JValue)) (pm : ProjectModel) :
    (loadComposites pm l).folders = pm.folders ∧ (loadComposites pm l).parts = pm.parts := by
  induction l generalizing pm with
  | nil => exact ⟨rfl, rfl⟩
  | cons hd rest ih =>
      obtain ⟨uuid, v⟩ := hd
      simp only [loadComposites]
      exact ih _

theorem JsonToPart_ref {obj : JObj} {im : List (String × Image)} {ref : AssetRef} {p : Part}
    (h : JsonToPart obj im ref = .ok p) : p.ref = ref := by
  unfold JsonToPart at h
  cases hf : partFields im obj "" [] with
  | error e =>
      rw [hf] at h
      exact Except.noConfusion h
  | ok pr =>
      obtain ⟨props, modes⟩ := pr
      rw [hf] at h
      injection h with h1
      rw [← h1]

theorem loadFolders_mem {pm : ProjectModel} {l : List (String × JValue)} {e : AssetRef × Folder}
    (he : e ∈ pm.folders)
    (hf : ∀ kv ∈ l, ¬ refEq { uuid := kv.1, type := AssetType.Folder } e.1) :
    e ∈ (loadFolders pm l).folders := by
  induction l generalizing pm with
  | nil => exact he
  | cons hd rest ih =>
      obtain ⟨uuid, v⟩ := hd
      simp only [loadFolders]
      exact ih (refInsert_mem _ _ he (hf (uuid, v) (List.mem_cons_self _ _)))
        (fun kv hkv => hf kv (List.mem_cons_of_mem _ hkv))

theorem loadParts_mem {im : List (String × Image)} {pm : ProjectModel}
    {l : List (String × JValue)} {e : AssetRef × Part}
    (he : e ∈ pm.parts)
    (hf : ∀ kv ∈ l, ¬ refEq { uuid := kv.1, type := AssetType.Part } e.1) :
    e ∈ (loadParts im pm l).1.parts := by
  induction l generalizing pm with
  | nil => exact he
  | cons hd rest ih =>
      obtain ⟨uuid, v⟩ := hd
      simp only [loadParts]
      cases hjp : JsonToPart v.toObject im { uuid := uuid, type := AssetType.Part } with
      | error er => exact he
      | ok part =>
          refine ih ?_ (fun kv hkv => hf kv (List.mem_cons_of_mem _ hkv))
          refine refInsert_mem _ _ he ?_
          rw [JsonToPart_ref hjp]
          exact hf (uuid, v) (List.mem_cons_self _ _)

theorem loadComposites_mem {pm : ProjectModel} {l : List (String × JValue)}
    {e : AssetRef × Composite}
    (he : e ∈ pm.composites)
    (hf : ∀ kv ∈ l, ¬ refEq { uuid := kv.1, type := AssetType.Composite } e.1) :
    e ∈ (loadComposites pm l).composites := by
  induction l generalizing pm with
  | nil => exact he
  | cons hd rest ih =>
      obtain ⟨uuid, v⟩ := hd
      simp only [loadComposites]
      exact ih (refInsert_mem _ _ he (hf (uuid, v) (List.mem_cons_self _ _)))
        (fun kv hkv => hf kv (List.mem_cons_of_mem _ hkv))

theorem loadFolders_exists_pres {pm : ProjectModel} {k0 : AssetRef} (l : List (String × JValue))
    (h : ∃ e ∈ pm.folders, refEq e.1 k0) :
    ∃ e ∈ (loadFolders pm l).folders, refEq e.1 k0 := by
  induction l generalizing pm with
  | nil => exact h
  | cons hd rest ih =>
      obtain ⟨uuid, v⟩ := hd
      simp only [loadFolders]
      exact ih (refInsert_exists_pres _ _ h)

theorem loadFolders_exists {pm : ProjectModel} {l : List (String × JValue)}
    {kv : String × JValue} (hkv : kv ∈ l) :
    ∃ e ∈ (loadFolders pm l).folders, refEq e.1 { uuid := kv.1, type := AssetType.Folder } := by
  induction l generalizing pm with
  | nil => cases hkv
  | cons hd rest ih =>
      obtain ⟨uuid, v⟩ := hd
      simp only [loadFolders]
      rcases List.mem_cons.mp hkv with h1 | hmem
      · subst h1
        exact loadFolders_exists_pres rest (refInsert_exists _ _ _)
      · exact ih hmem

theorem loadParts_exists_pres {im : List (String × Image)} {pm : ProjectModel} {k0 : AssetRef}
    (l : List (String × JValue)) (h : ∃ e ∈ pm.parts, refEq e.1 k0) :
    ∃ e ∈ (loadParts im pm l).1.parts, refEq e.1 k0 := by
  induction l generalizing pm with
  | nil => exact h
  | cons hd rest ih =>
      obtain ⟨uuid, v⟩ := hd
      simp only [loadParts]
      cases JsonToPart v.toObject im { uuid := uuid, type := AssetType.Part } with
      | error er => exact h
      | ok part => exact ih (refInsert_exists_pres _ _ h)

theorem loadParts_exists {im : List (String × Image)} {pm : ProjectModel}
    {l : List (String × JValue)} {pmOut : ProjectModel}
    (hl : loadParts im pm l = (pmOut, false))
    {kv : String × JValue} (hkv : kv ∈ l) :
    ∃ e ∈ pmOut.parts, refEq e.1 { uuid := kv.1, type := AssetType.Part } := by
  induction l generalizing pm with
  | nil => cases hkv
  | cons hd rest ih =>
      obtain ⟨uuid, v⟩ := hd
      simp only [loadParts] at hl
      cases hjp : JsonToPart v.toObject im { uuid := uuid, type := AssetType.Part } with
      | error er =>
          rw [hjp] at hl
          injection hl with _ hb
          exact Bool.noConfusion hb
      | ok part =>
          rw [hjp] at hl
          rcases List.mem_cons.mp hkv with h1 | hmem
          · subst h1
            have hbase :
                ∃ e ∈ (refInsert pm.parts part.ref part), refEq e.1 part.ref :=
              refInsert_exists _ _ _
            have hres := @loadParts_exists_pres im
              { pm with parts := refInsert pm.parts part.ref part } _ rest hbase
            rw [congrArg Prod.fst hl] at hres
            rw [JsonToPart_ref hjp] at hres
            exact hres
          · exact ih hl hmem

theorem loadComposites_exists_pres {pm : ProjectModel} {k0 : AssetRef}
    (l : List (String × JValue)) (h : ∃ e ∈ pm.composites, refEq e.1 k0) :
    ∃ e ∈ (loadComposites pm l).composites, refEq e.1 k0 := by
  induction l generalizing pm with
  | nil => exact h
  | cons hd rest ih =>
      obtain ⟨uuid, v⟩ := hd
      simp only [loadComposites]
      exact ih (refInsert_exists_pres _ _ h)

theorem loadComposites_exists {pm : ProjectModel} {l : List (String × JValue)}
    {kv : String × JValue} (hkv : kv ∈ l) :
    ∃ e ∈ (loadComposites pm l).composites,
      refEq e.1 { uuid := kv.1, type := AssetType.Composite } := by
  induction l generalizing pm with
  | nil => cases hkv
  | cons hd rest ih =>
      obtain ⟨uuid, v⟩ := hd
      simp only [loadComposites]
      rcases List.mem_cons.mp hkv with h1 | hmem
      · subst h1
        exact loadComposites_exists_pres rest (refInsert_exists _ _ _)
      · exact ih hmem

/-- C2 (counterexample): against a prior registry holding folder `"u1"`,
loading an archive whose document holds only folder `"u2"` succeeds and the
prior folder is still in the registry — the collections do not contain
"exactly the assets of the loaded document and nothing from the prior
state", because `load` never clears. -/
theorem load_without_clear_counterexample :
    (load (parseTo docNewFolder) noImage pmPrior "new.mqs" tarData).1 = .ok ∧
    (({ uuid := "u1", type := AssetType.Folder },
      { ref := { uuid := "u1", type := AssetType.Folder }, name := "Old",
        parent := nullRef }) : AssetRef × Folder) ∈
      (load (parseTo docNewFolder) noImage pmPrior "new.mqs" tarData).2.folders :=
  ⟨rfl, by decide⟩

/-- C2 (amended): on a successful `load` the registry is the prior state
with the document's assets merged in by ref — `clear` is never invoked:
prior entries whose refs match no decoded record of the same kind survive,
every document record is present under its (kind-tagged) ref, and the
remembered file name becomes the given path. -/
theorem load_success_merges_without_clear
    (parse : List Nat → Except String JValue) (decodeImage : List Nat → Option Image)
    (pm : ProjectModel) (path : String) (fm : List (String × TarRecord))
    (dataRec : TarRecord) (dataObj : JObj) (pm2 : ProjectModel)
    (hrec : assocLookup fm "data.json" = some dataRec)
    (hparse : parse (dataRec.buffer.take (dataLengthOf dataRec.buffer)) =
      Except.ok (JValue.obj dataObj))
    (h : load parse decodeImage pm path (.tar fm) = (.ok, pm2)) :
    pm2.fileName = path ∧
    (∀ e ∈ pm.folders, (∀ kv ∈ (jlookup dataObj "folders").toObject,
        ¬ refEq { uuid := kv.1, type := AssetType.Folder } e.1) → e ∈ pm2.folders) ∧
    (∀ e ∈ pm.parts, (∀ kv ∈ (jlookup dataObj "parts").toObject,
        ¬ refEq { uuid := kv.1, type := AssetType.Part } e.1) → e ∈ pm2.parts) ∧
    (∀ e ∈ pm.composites, (∀ kv ∈ (jlookup dataObj "comps").toObject,
        ¬ refEq { uuid := kv.1, type := AssetType.Composite } e.1) → e ∈ pm2.composites) ∧
    (∀ kv ∈ (jlookup dataObj "folders").toObject,
        ∃ e ∈ pm2.folders, refEq e.1 { uuid := kv.1, type := AssetType.Folder }) ∧
    (∀ kv ∈ (jlookup dataObj "parts").toObject,
        ∃ e ∈ pm2.parts, refEq e.1 { uuid := kv.1, type := AssetType.Part }) ∧
    (∀ kv ∈ (jlookup dataObj "comps").toObject,
        ∃ e ∈ pm2.composites, refEq e.1 { uuid := kv.1, type := AssetType.Composite }) := by
  by_cases h0 : dataLengthOf dataRec.buffer = 0
  · exfalso
    simp only [load, hrec, if_pos h0] at h
    injection h with h1 _
    exact LoadOutcome.noConfusion h1
  · simp only [load, hrec, if_neg h0, hparse] at h
    by_cases hc : jcontains dataObj "version" = true
    · rw [if_pos hc] at h
      by_cases hv : (jlookup dataObj "version").toIntD 0 = PROJECT_SAVE_FILE_VERSION
      · rw [if_pos hv] at h
        cases him : buildImageMap decodeImage fm [] with
        | none =>
            rw [him] at h
            injection h with h1 _
            exact LoadOutcome.noConfusion h1
        | some im =>
            simp only [him] at h
            rcases hlp : loadParts im (loadFolders pm (jlookup dataObj "folders").toObject)
                (jlookup dataObj "parts").toObject with ⟨pmP, crashed⟩
            rw [hlp] at h
            cases crashed with
            | true =>
                injection h with h1 _
                exact LoadOutcome.noConfusion h1
            | false =>
                injection h with _ h2
                subst h2
                have hkF := loadFolders_keeps (jlookup dataObj "folders").toObject pm
                have hkP := loadParts_keeps im (jlookup dataObj "parts").toObject
                  (loadFolders pm (jlookup dataObj "folders").toObject)
                have hkC := loadComposites_keeps (jlookup dataObj "comps").toObject pmP
                have hPfst := congrArg Prod.fst hlp
                refine ⟨rfl, ?_, ?_, ?_, ?_, ?_, ?_⟩
                · intro e he hfr
                  have e1 := loadFolders_mem he hfr
                  have e2 : e ∈ pmP.folders := by
                    have := hkP.1
                    rw [hPfst] at this
                    rw [this]
                    exact e1
                  show e ∈ (loadComposites pmP (jlookup dataObj "comps").toObject).folders
                  rw [hkC.1]
                  exact e2
                · intro e he hfr
                  have e1 : e ∈ (loadFolders pm (jlookup dataObj "folders").toObject).parts := by
                    rw [hkF.1]
                    exact he
                  have e2 := @loadParts_mem im _ _ _ e1 hfr
                  rw [hPfst] at e2
                  show e ∈ (loadComposites pmP (jlookup dataObj "comps").toObject).parts
                  rw [hkC.2]
                  exact e2
                · intro e he hfr
                  have e1 : e ∈ pmP.composites := by
                    have := hkP.2
                    rw [hPfst] at this
                    rw [this, hkF.2]
                    exact he
                  exact loadComposites_mem e1 hfr
                · intro kv hkv
                  have e1 := @loadFolders_exists pm _ _ hkv
                  have e2 : ∃ e ∈ pmP.folders,
                      refEq e.1 { uuid := kv.1, type := AssetType.Folder } := by
                    have := hkP.1
                    rw [hPfst] at this
                    rw [this]
                    exact e1
                  show ∃ e ∈ (loadComposites pmP
                      (jlookup dataObj "comps").toObject).folders, _
                  rw [hkC.1]
                  exact e2
                · intro kv hkv
                  have e1 := loadParts_exists hlp hkv
                  show ∃ e ∈ (loadComposites pmP
                      (jlookup dataObj "comps").toObject).parts, _
                  rw [hkC.2]
                  exact e1
                · intro kv hkv
                  exact loadComposites_exists hkv
      · rw [if_neg hv] at h
        injection h with h1 _
        exact LoadOutcome.noConfusion h1
    · rw [if_neg hc] at h
      injection h with h1 _
      exact LoadOutcome.noConfusion h1

/-- Witness for C2 (amended): the concrete merge of document folder `"u2"`
into the prior one-folder registry. -/
theorem load_merges_witness :
    (load (parseTo docNewFolder) noImage pmPrior "new.mqs" tarData).2.fileName = "new.mqs" ∧
    (∀ e ∈ pmPrior.folders,
      (∀ kv ∈ (jlookup [("version", JValue.num 1),
          ("folders", JValue.obj [("u2", JValue.obj [("name", JValue.str "New")])])]
          "folders").toObject,
        ¬ refEq { uuid := kv.1, type := AssetType.Folder } e.1) →
      e ∈ (load (parseTo docNewFolder) noImage pmPrior "new.mqs" tarData).2.folders) := by
  have hmain := load_success_merges_without_clear (parseTo docNewFolder) noImage pmPrior
    "new.mqs" [("data.json", TarRecord.mk [49, 0])] (TarRecord.mk [49, 0])
    [("version", JValue.num 1),
     ("folders", JValue.obj [("u2", JValue.obj [("name", JValue.str "New")])])]
    (load (parseTo docNewFolder) noImage pmPrior "new.mqs" tarData).2
    rfl rfl rfl
  exact ⟨hmain.1, hmain.2.1⟩

/-! ## C7 and C10: the mode-classification and frame-count behaviour of
`JsonToPart` -/

theorem assocInsert_isSome {α : Type} (m : List (String × α)) (k0 k : String) (v : α) :
    (assocLookup (assocInsert m k0 v) k).isSome = true ↔
      (k = k0 ∨ (assocLookup m k).isSome = true) := by
  induction m with
  | nil =>
      by_cases hk : k0 = k
      · subst hk
        simp [assocInsert, assocLookup]
      · simp [assocInsert, assocLookup, hk]
        intro h
        exact hk h.symm
  | cons hd rest ih =>
      obtain ⟨k', v'⟩ := hd
      by_cases h1 : k' = k0
      · subst h1
        by_cases h2 : k' = k
        · subst h2
          simp [assocInsert, assocLookup]
        · simp only [assocInsert, if_pos rfl]
          simp only [assocLookup, if_neg h2]
          constructor
          · intro hh
            exact Or.inr hh
          · rintro (hh | hh)
            · exact absurd hh.symm h2
            · exact hh
      · by_cases h2 : k' = k
        · subst h2
          simp [assocInsert, h1, assocLookup]
        · simp only [assocInsert, if_neg h1]
          simp [assocLookup, h2, ih]

theorem jsonToMode_ok_count {mo : JObj} {im : List (String × Image)} {m : Mode}
    (h : jsonToMode mo im = .ok m) :
    ((jlookup mo "frames").toArray.length : Int) = (jlookup mo "numFrames").toIntD 0 := by
  by_cases hc : ((jlookup mo "frames").toArray.length : Int) = (jlookup mo "numFrames").toIntD 0
  · exact hc
  · exfalso
    simp only [jsonToMode] at h
    rw [if_pos hc] at h
    exact Except.noConfusion h

theorem partFields_ok_counts {im : List (String × Image)} :
    ∀ (fields : List (String × JValue)) (props : String) (modes : List (String × Mode))
      (res : String × List (String × Mode)),
      partFields im fields props modes = .ok res →
      ∀ kv ∈ fields, kv.1 ≠ "properties" → (kv.2.toObject).isEmpty = false →
        ∃ m, jsonToMode kv.2.toObject im = .ok m := by
  intro fields
  induction fields with
  | nil =>
      intro props modes res _ kv hkv
      cases hkv
  | cons hd rest ih =>
      obtain ⟨k0, v0⟩ := hd
      intro props modes res h kv hkv hne hemp
      simp only [partFields] at h
      rcases List.mem_cons.mp hkv with h1 | hmem
      · have hk : k0 = kv.1 := (congrArg Prod.fst h1).symm
        have hv : v0 = kv.2 := (congrArg Prod.snd h1).symm
        subst hk
        subst hv
        rw [if_neg hne] at h
        rw [if_neg (by simp [hemp])] at h
        cases hjm : jsonToMode kv.2.toObject im with
        | error e =>
            rw [hjm] at h
            exact Except.noConfusion h
        | ok m => exact ⟨m, rfl⟩
      · by_cases hk0 : k0 = "properties"
        · rw [if_pos hk0] at h
          exact ih _ _ _ h kv hmem hne hemp
        · rw [if_neg hk0] at h
          by_cases hemp0 : (v0.toObject).isEmpty = true
          · rw [if_pos hemp0] at h
            exact ih _ _ _ h kv hmem hne hemp
          · rw [if_neg hemp0] at h
            cases hjm : jsonToMode v0.toObject im with
            | error e =>
                rw [hjm] at h
                exact Except.noConfusion h
            | ok m =>
                rw [hjm] at h
                exact ih _ _ _ h kv hmem hne hemp

/-- C7: a part record holding a (non-empty) mode record whose `frames` array
length differs from its `numFrames` field never decodes to a part: the
`Q_ASSERT(frameArray.count()==m.numFrames)` consistency check (or an earlier
abnormal exit) is fatal, never recoverable or silently ignored. -/
theorem frame_count_mismatch_is_fatal (obj : JObj) (imageMap : List (String × Image))
    (ref : AssetRef)
    (hbad : ∃ kv ∈ obj, kv.1 ≠ "properties" ∧ (kv.2.toObject).isEmpty = false ∧
      ((jlookup kv.2.toObject "frames").toArray.length : Int) ≠
        (jlookup kv.2.toObject "numFrames").toIntD 0) :
    ∀ p : Part, JsonToPart obj imageMap ref ≠ .ok p := by
  intro p hp
  obtain ⟨kv, hkv, hne, hemp, hcnt⟩ := hbad
  unfold JsonToPart at hp
  cases hf : partFields imageMap obj "" [] with
  | error e =>
      rw [hf] at hp
      exact Except.noConfusion hp
  | ok pr =>
      obtain ⟨m, hm⟩ := partFields_ok_counts obj "" [] pr hf kv hkv hne hemp
      exact hcnt (jsonToMode_ok_count hm)

/-- The C7 concrete record: mode `"M"` declares 2 frames but carries an
empty `frames` array. -/
def partObjBadCount : JObj :=
  [("M", JValue.obj [("numFrames", JValue.num 2), ("frames", JValue.arr [])])]

/-- Witness for C7: the mismatching record is rejected. -/
theorem frame_count_witness :
    (∃ kv ∈ partObjBadCount, kv.1 ≠ "properties" ∧ (kv.2.toObject).isEmpty = false ∧
      ((jlookup kv.2.toObject "frames").toArray.length : Int) ≠
        (jlookup kv.2.toObject "numFrames").toIntD 0) ∧
    (∀ p : Part,
      JsonToPart partObjBadCount [] { uuid := "u", type := AssetType.Part } ≠ .ok p) := by
  have hx : ∃ kv ∈ partObjBadCount, kv.1 ≠ "properties" ∧
      (kv.2.toObject).isEmpty = false ∧
      ((jlookup kv.2.toObject "frames").toArray.length : Int) ≠
        (jlookup kv.2.toObject "numFrames").toIntD 0 := by
    refine ⟨("M", JValue.obj [("numFrames", JValue.num 2), ("frames", JValue.arr [])]),
      List.mem_singleton.mpr rfl, by decide, rfl, by decide⟩
  exact ⟨hx, frame_count_mismatch_is_fatal _ _ _ hx⟩

theorem partFields_ok_modes {im : List (String × Image)} :
    ∀ (fields : List (String × JValue)) (props : String) (modes : List (String × Mode))
      (res : String × List (String × Mode)),
      partFields im fields props modes = .ok res →
      ∀ k : String, (assocLookup res.2 k).isSome = true ↔
        ((assocLookup modes k).isSome = true ∨
          ∃ v, (k, v) ∈ fields ∧ k ≠ "properties" ∧ (v.toObject).isEmpty = false) := by
  intro fields
  induction fields with
  | nil =>
      intro props modes res h k
      simp only [partFields] at h
      injection h with h1
      subst h1
      simp
  | cons hd rest ih =>
      obtain ⟨k0, v0⟩ := hd
      intro props modes res h k
      simp only [partFields] at h
      by_cases hk0 : k0 = "properties"
      · rw [if_pos hk0] at h
        rw [ih _ _ _ h k]
        constructor
        · rintro (hbase | ⟨v, hv, hne, hemp⟩)
          · exact Or.inl hbase
          · exact Or.inr ⟨v, List.mem_cons_of_mem _ hv, hne, hemp⟩
        · rintro (hbase | ⟨v, hv, hne, hemp⟩)
          · exact Or.inl hbase
          · rcases List.mem_cons.mp hv with h1 | h1
            · exact absurd (hk0 ▸ congrArg Prod.fst h1 : k = "properties") hne
            · exact Or.inr ⟨v, h1, hne, hemp⟩
      · rw [if_neg hk0] at h
        by_cases hemp0 : (v0.toObject).isEmpty = true
        · rw [if_pos hemp0] at h
          rw [ih _ _ _ h k]
          constructor
          · rintro (hbase | ⟨v, hv, hne, hemp⟩)
            · exact Or.inl hbase
            · exact Or.inr ⟨v, List.mem_cons_of_mem _ hv, hne, hemp⟩
          · rintro (hbase | ⟨v, hv, hne, hemp⟩)
            · exact Or.inl hbase
            · rcases List.mem_cons.mp hv with h1 | h1
              · exfalso
                have hv0 : v = v0 := congrArg Prod.snd h1
                rw [hv0, hemp0] at hemp
                exact Bool.noConfusion hemp
              · exact Or.inr ⟨v, h1, hne, hemp⟩
        · rw [if_neg hemp0] at h
          cases hjm : jsonToMode v0.toObject im with
          | error e =>
              rw [hjm] at h
              exact Except.noConfusion h
          | ok m =>
              rw [hjm] at h
              rw [ih _ _ _ h k, assocInsert_isSome]
              constructor
              · rintro ((h1 | hbase) | ⟨v, hv, hne, hemp⟩)
                · subst h1
                  exact Or.inr ⟨v0, List.mem_cons_self _ _, hk0,
                    Bool.eq_false_iff.mpr hemp0⟩
                · exact Or.inl hbase
                · exact Or.inr ⟨v, List.mem_cons_of_mem _ hv, hne, hemp⟩
              · rintro (hbase | ⟨v, hv, hne, hemp⟩)
                · exact Or.inl (Or.inr hbase)
                · rcases List.mem_cons.mp hv with h1 | h1
                  · exact Or.inl (Or.inl (congrArg Prod.fst h1))
                  · exact Or.inr ⟨v, h1, hne, hemp⟩

/-- C10: given that `JsonToPart` succeeds, a top-level key of the part
record names a decoded animation mode iff its value converts to a non-empty
JSON object and the key is not `"properties"` (the only name-based
exclusion); the string-valued `"name"` and `"parent"` keys are skipped only
because their `toObject()` is empty, and a key whose record is an empty
object is silently absent from the mode map. -/
theorem mode_classification_iff (obj : JObj) (imageMap : List (String × Image))
    (ref : AssetRef) (part : Part) (h : JsonToPart obj imageMap ref = .ok part) :
    ∀ k : String, (assocLookup part.modes k).isSome = true ↔
      ∃ v, (k, v) ∈ obj ∧ k ≠ "properties" ∧ (v.toObject).isEmpty = false := by
  unfold JsonToPart at h
  cases hf : partFields imageMap obj "" [] with
  | error e =>
      rw [hf] at h
      exact Except.noConfusion h
  | ok pr =>
      obtain ⟨props, modes⟩ := pr
      rw [hf] at h
      injection h with h1
      intro k
      have h2 := partFields_ok_modes obj "" [] (props, modes) hf k
      simp only [assocLookup, Option.isSome_none, Bool.false_eq_true, false_or] at h2
      rw [← h1]
      exact h2

/-- The C10 concrete record: a string-valued `"name"` key and a mode key
`"Empty"` whose record is the empty object. -/
def partObjWithEmptyMode : JObj := [("name", JValue.str "P"), ("Empty", JValue.obj [])]

/-- The part decoded from `partObjWithEmptyMode`: the empty-object mode is
silently dropped. -/
def partDecodedW : Part :=
  { ref := { uuid := "u", type := AssetType.Part }, name := "P", parent := nullRef,
    properties := "", modes := [] }

/-- Witness for C10: the record with an empty-object mode decodes
successfully, and the classification holds for every key. -/
theorem mode_classification_witness :
    (JsonToPart partObjWithEmptyMode [] { uuid := "u", type := AssetType.Part } =
      .ok partDecodedW) ∧
    (∀ k : String, (assocLookup partDecodedW.modes k).isSome = true ↔
      ∃ v, (k, v) ∈ partObjWithEmptyMode ∧ k ≠ "properties" ∧
        (v.toObject).isEmpty = false) :=
  ⟨rfl, mode_classification_iff partObjWithEmptyMode [] _ partDecodedW rfl⟩

/-! ## C8: pivot padding -/

theorem pushPivotsFrom_get (ps : List (List QPoint)) (f : Nat → QPoint) :
    ∀ (j p : Nat), (pushPivotsFrom j ps f).get? p =
      (ps.get? p).map (fun s => s ++ [f (j + p)]) := by
  induction ps with
  | nil => intro j p; rfl
  | cons s rest ih =>
      intro j p
      cases p with
      | zero => simp [pushPivotsFrom]
      | succ p' =>
          simp only [pushPivotsFrom, List.get?]
          rw [ih (j + 1) p', show j + 1 + p' = j + (p' + 1) from by omega]

theorem pushPivotsFrom_length (ps : List (List QPoint)) (f : Nat → QPoint) :
    ∀ j : Nat, (pushPivotsFrom j ps f).length = ps.length := by
  induction ps with
  | nil => intro j; rfl
  | cons s rest ih =>
      intro j
      simp [pushPivotsFrom, ih (j + 1)]

theorem processFrame_ok_pivots {w h np : Int} {im : List (String × Image)}
    {acc acc1 : FrameAcc} {fv : JValue}
    (hp : processFrame w h np im acc fv = .ok acc1) :
    acc1.pivots = pushPivotsFrom 0 acc.pivots (pivotPoint np fv.toObject) := by
  simp only [processFrame] at hp
  cases hl : assocLookup im (jlookup fv.toObject "image").toQString with
  | none =>
      rw [hl] at hp
      exact Except.noConfusion hp
  | some image =>
      simp only [hl] at hp
      by_cases h1 : (image.width = w ∧ image.height = h)
      · rw [if_neg (not_not_intro h1)] at hp
        by_cases h2 : (np < 0 ∨ (MAX_PIVOTS : Int) < np)
        · rw [if_pos h2] at hp
          exact Except.noConfusion hp
        · rw [if_neg h2] at hp
          injection hp with h3
          rw [← h3]
      · rw [if_pos h1] at hp
        exact Except.noConfusion hp

theorem processFrames_pivots {w h np : Int} {im : List (String × Image)} :
    ∀ (fvs : List JValue) (acc acc' : FrameAcc),
      processFrames w h np im fvs acc = .ok acc' →
      ∀ p : Nat, acc'.pivots.get? p =
        (acc.pivots.get? p).map
          (fun s => s ++ fvs.map (fun fv => pivotPoint np fv.toObject p)) := by
  intro fvs
  induction fvs with
  | nil =>
      intro acc acc' hp p
      simp only [processFrames] at hp
      injection hp with h1
      subst h1
      cases acc.pivots.get? p <;> simp
  | cons fv rest ih =>
      intro acc acc' hp p
      simp only [processFrames] at hp
      cases hpf : processFrame w h np im acc fv with
      | error e =>
          rw [hpf] at hp
          exact Except.noConfusion hp
      | ok acc1 =>
          rw [hpf] at hp
          have hrec := ih acc1 acc' hp p
          rw [processFrame_ok_pivots hpf, pushPivotsFrom_get] at hrec
          rw [hrec]
          cases acc.pivots.get? p <;> simp

theorem processFrames_pivots_length {w h np : Int} {im : List (String × Image)} :
    ∀ (fvs : List JValue) (acc acc' : FrameAcc),
      processFrames w h np im fvs acc = .ok acc' →
      acc'.pivots.length = acc.pivots.length := by
  intro fvs
  induction fvs with
  | nil =>
      intro acc acc' hp
      simp only [processFrames] at hp
      injection hp with h1
      subst h1
      rfl
  | cons fv rest ih =>
      intro acc acc' hp
      simp only [processFrames] at hp
      cases hpf : processFrame w h np im acc fv with
      | error e =>
          rw [hpf] at hp
          exact Except.noConfusion hp
      | ok acc1 =>
          rw [hpf] at hp
          rw [ih acc1 acc' hp, processFrame_ok_pivots hpf, pushPivotsFrom_length]

/-- C8: when `jsonToMode` succeeds on a record with `numPivots = 1`
(`MAX_PIVOTS` being 4), the decoded mode has exactly 4 pivot sequences,
each of length `numFrames`; sequence 0 holds the `(p0x, p0y)` points read
from each frame record, and sequences 1 through 3 hold `(0, 0)` for every
frame. -/
theorem pivot_padding (mo : JObj) (imageMap : List (String × Image)) (m : Mode)
    (hok : jsonToMode mo imageMap = .ok m)
    (hp1 : (jlookup mo "numPivots").toIntD 0 = 1) :
    m.pivots.length = MAX_PIVOTS ∧ MAX_PIVOTS = 4 ∧
    (∀ p : Nat, p < 4 →
      (m.pivots.get? p).map (fun s => (s.length : Int)) = some m.numFrames) ∧
    m.pivots.get? 0 = some ((jlookup mo "frames").toArray.map (fun fv =>
      QPoint.mk (jlookup fv.toObject "p0x").toVariantInt
        (jlookup fv.toObject "p0y").toVariantInt)) ∧
    (∀ p : Nat, 1 ≤ p → p < 4 →
      m.pivots.get? p = some ((jlookup mo "frames").toArray.map
        (fun _ => QPoint.mk 0 0))) := by
  have hcnt := jsonToMode_ok_count hok
  simp only [jsonToMode] at hok
  rw [if_neg (not_not_intro hcnt)] at hok
  cases hpr : processFrames ((jlookup mo "width").toIntD 0) ((jlookup mo "height").toIntD 0)
      ((jlookup mo "numPivots").toIntD 0) imageMap ((jlookup mo "frames").toArray)
      { anchor := [], frames := [], pivots := List.replicate MAX_PIVOTS [] } with
  | error e =>
      rw [hpr] at hok
      exact Except.noConfusion hok
  | ok acc =>
      rw [hpr] at hok
      injection hok with h1
      subst h1
      have hget := processFrames_pivots _ _ _ hpr
      have hlen := processFrames_pivots_length _ _ _ hpr
      rw [hp1] at hget
      refine ⟨by simpa using hlen, rfl, ?_, ?_, ?_⟩
      · intro p hp
        rw [hget p]
        interval_cases p <;>
          simp [MAX_PIVOTS, List.length_map, ← hcnt]
      · rw [hget 0]
        have : (fun fv => pivotPoint 1 fv.toObject 0) = (fun fv : JValue =>
            QPoint.mk (jlookup fv.toObject "p0x").toVariantInt
              (jlookup fv.toObject "p0y").toVariantInt) := rfl
        simp [this, MAX_PIVOTS]
      · intro p h1p hp4
        rw [hget p]
        have hzero : ∀ fv : JValue, pivotPoint 1 fv.toObject p = QPoint.mk 0 0 := by
          intro fv
          unfold pivotPoint
          rw [if_neg]
          omega
        interval_cases p <;> simp [hzero, MAX_PIVOTS]

/-- The C8 concrete mode record: one frame, one pivot. -/
def modeObjOnePivot : JObj :=
  [("width", JValue.num 1), ("height", JValue.num 1), ("numFrames", JValue.num 1),
   ("numPivots", JValue.num 1), ("framesPerSecond", JValue.num 8),
   ("frames", JValue.arr [JValue.obj
     [("ax", JValue.num 2), ("ay", JValue.num 3), ("image", JValue.str "i.png"),
      ("p0x", JValue.num 5), ("p0y", JValue.num 6)]])]

/-- The mode decoded from `modeObjOnePivot`. -/
def modeDecodedW : Mode :=
  { width := 1, height := 1, numFrames := 1, numPivots := 1, framesPerSecond := 8,
    frames := [{ width := 1, height := 1 }], anchor := [{ x := 2, y := 3 }],
    pivots := [[{ x := 5, y := 6 }], [{ x := 0, y := 0 }], [{ x := 0, y := 0 }],
      [{ x := 0, y := 0 }]] }

/-- Witness for C8 at the concrete one-pivot record. -/
theorem pivot_padding_witness :
    (jsonToMode modeObjOnePivot [("i.png", { width := 1, height := 1 })] =
      .ok modeDecodedW) ∧
    modeDecodedW.pivots.length = MAX_PIVOTS ∧ MAX_PIVOTS = 4 ∧
    (∀ p : Nat, p < 4 →
      (modeDecodedW.pivots.get? p).map (fun s => (s.length : Int)) =
        some modeDecodedW.numFrames) ∧
    modeDecodedW.pivots.get? 0 = some ((jlookup modeObjOnePivot "frames").toArray.map
      (fun fv => QPoint.mk (jlookup fv.toObject "p0x").toVariantInt
        (jlookup fv.toObject "p0y").toVariantInt)) ∧
    (∀ p : Nat, 1 ≤ p → p < 4 →
      modeDecodedW.pivots.get? p = some ((jlookup modeObjOnePivot "frames").toArray.map
        (fun _ => QPoint.mk 0 0))) :=
  ⟨rfl, pivot_padding modeObjOnePivot [("i.png", { width := 1, height := 1 })]
    modeDecodedW rfl rfl⟩

/-! ## C9: the children / childrenMap sync invariant of `JsonToComposite` -/

/-- The entries the child loop of `JsonToComposite` inserts, in document
order, indices counting from `start`. -/
def childEntries (start : Int) : List JValue → List (String × Child)
  | [] => []
  | v :: rest => (childNameOf v, jsonToChild v start) :: childEntries (start + 1) rest

theorem childEntries_keys (vals : List JValue) :
    ∀ start : Int, (childEntries start vals).map Prod.fst = vals.map childNameOf := by
  induction vals with
  | nil => intro start; rfl
  | cons v rest ih =>
      intro start
      simp [childEntries, ih (start + 1)]

theorem buildChildrenMapFrom_eq :
    ∀ (vals : List JValue) (start : Int) (m : List (String × Child)),
      (vals.map childNameOf).Nodup →
      (∀ e ∈ m, e.1 ∉ vals.map childNameOf) →
      buildChildrenMapFrom start vals m = m ++ childEntries start vals := by
  intro vals
  induction vals with
  | nil =>
      intro start m _ _
      simp [buildChildrenMapFrom, childEntries]
  | cons v rest ih =>
      intro start m hnd hdis
      simp only [buildChildrenMapFrom, childEntries]
      have hfresh : ∀ e ∈ m, e.1 ≠ childNameOf v := by
        intro e he
        have h1 := hdis e he
        simp only [List.map_cons, List.mem_cons] at h1
        push_neg at h1
        exact h1.1
      rw [assocInsert_of_fresh _ hfresh]
      rw [ih (start + 1) (m ++ [(childNameOf v, jsonToChild v start)])
        (List.nodup_cons.mp hnd).2 ?_]
      · simp
      · intro e he
        rcases List.mem_append.mp he with h1 | h1
        · have h2 := hdis e h1
          simp only [List.map_cons, List.mem_cons] at h2
          push_neg at h2
          exact h2.2
        · have h2 : e = (childNameOf v, jsonToChild v start) := List.mem_singleton.mp h1
          rw [h2]
          exact (List.nodup_cons.mp hnd).1

theorem childEntries_indices (vals : List JValue) :
    ∀ start : Int, (childEntries start vals).map (fun e => e.2.index) =
      (List.range vals.length).map (fun j : Nat => start + (j : Int)) := by
  induction vals with
  | nil => intro start; rfl
  | cons v rest ih =>
      intro start
      have hfun : (fun j : Nat => start + 1 + (j : Int)) =
          (fun j : Nat => start + (Nat.succ j : Int)) := by
        funext j
        push_cast
        ring
      simp only [childEntries, List.map_cons, ih (start + 1), List.length_cons,
        List.range_succ_eq_map, List.map_map, hfun]
      simp [jsonToChild, Function.comp]

/-- C9 (amended): for every composite record whose child entries carry
pairwise distinct names, the decoded composite satisfies the sync
invariant — every name in the ordered `children` list has exactly one
`childrenMap` entry, every `childrenMap` key occurs exactly once in
`children`, and the document-order indices in `childrenMap` are pairwise
distinct.  (With duplicate names the invariant fails; see the
counterexample.) -/
theorem composite_sync_invariant (obj : JObj) (ref : AssetRef)
    (hnd : (((jlookup obj "parts").toArray).map childNameOf).Nodup) :
    (∀ n ∈ (JsonToComposite obj ref).children,
        ((JsonToComposite obj ref).childrenMap.map Prod.fst).count n = 1) ∧
    (∀ e ∈ (JsonToComposite obj ref).childrenMap,
        (JsonToComposite obj ref).children.count e.1 = 1) ∧
    ((JsonToComposite obj ref).childrenMap.map (fun e => e.2.index)).Nodup := by
  have hmap : (JsonToComposite obj ref).childrenMap =
      childEntries 0 ((jlookup obj "parts").toArray) := by
    show buildChildrenMapFrom 0 ((jlookup obj "parts").toArray) [] = _
    rw [buildChildrenMapFrom_eq _ 0 [] hnd (by intro e he; cases he)]
    simp
  have hch : (JsonToComposite obj ref).children =
      ((jlookup obj "parts").toArray).map childNameOf := rfl
  refine ⟨?_, ?_, ?_⟩
  · intro n hn
    rw [hmap, childEntries_keys]
    rw [hch] at hn
    exact List.count_eq_one_of_mem hnd hn
  · intro e he
    rw [hmap] at he
    have h1 : e.1 ∈ (childEntries 0 ((jlookup obj "parts").toArray)).map Prod.fst :=
      List.mem_map_of_mem _ he
    rw [childEntries_keys] at h1
    rw [hch]
    exact List.count_eq_one_of_mem hnd h1
  · rw [hmap, childEntries_indices]
    refine List.Nodup.map ?_ (List.nodup_range _)
    intro a b hab
    simpa using hab

/-- The C9 concrete record: two child entries both named `"a"`. -/
def compObjDupNames : JObj :=
  [("parts", JValue.arr
    [JValue.obj [("name", JValue.str "a"), ("z", JValue.num 1)],
     JValue.obj [("name", JValue.str "a"), ("z", JValue.num 2)]])]

/-- A ref for the C9 composites. -/
def cRef : AssetRef := { uuid := "c", type := AssetType.Composite }

/-- C9 (counterexample): with duplicate child names the claimed invariant
fails — `"a"` is pushed twice into `children` while `QMap::insert` keeps a
single `childrenMap` entry, so the entry's key does not occur exactly once
in `children`. -/
theorem duplicate_child_names_counterexample :
    ∃ e ∈ (JsonToComposite compObjDupNames cRef).childrenMap,
      (JsonToComposite compObjDupNames cRef).children.count e.1 ≠ 1 := by decide

/-- The C9 witness record: two child entries with distinct names. -/
def compObjTwoNames : JObj :=
  [("parts", JValue.arr
    [JValue.obj [("name", JValue.str "a")],
     JValue.obj [("name", JValue.str "b"), ("parent", JValue.num 0)]])]

/-- Witness for C9 (amended) at the record with two distinct child names. -/
theorem composite_sync_witness :
    (∀ n ∈ (JsonToComposite compObjTwoNames cRef).children,
        ((JsonToComposite compObjTwoNames cRef).childrenMap.map Prod.fst).count n = 1) ∧
    (∀ e ∈ (JsonToComposite compObjTwoNames cRef).childrenMap,
        (JsonToComposite compObjTwoNames cRef).children.count e.1 = 1) ∧
    ((JsonToComposite compObjTwoNames cRef).childrenMap.map (fun e => e.2.index)).Nodup :=
  composite_sync_invariant compObjTwoNames cRef (by decide)

/-! ## C5: the Folder and Composite encode/decode round trip -/

theorem childEntries_lookup :
    ∀ (vals : List JValue) (start : Int) (j : Nat) (hj : j < vals.length),
      (vals.map childNameOf).Nodup →
      assocLookup (childEntries start vals) (childNameOf (vals[j])) =
        some (jsonToChild (vals[j]) (start + (j : Int))) := by
  intro vals
  induction vals with
  | nil =>
      intro start j hj
      exact absurd hj (Nat.not_lt_zero j)
  | cons v rest ih =>
      intro start j hj hnd
      cases j with
      | zero =>
          show assocLookup ((childNameOf v, jsonToChild v start) :: childEntries (start + 1) rest)
              (childNameOf v) = some (jsonToChild v (start + ((0 : Nat) : Int)))
          rw [show start + ((0 : Nat) : Int) = start from by push_cast; ring]
          simp [assocLookup]
      | succ j' =>
          have hj' : j' < rest.length := by simpa using hj
          have hne : childNameOf v ≠ childNameOf (rest[j']) := by
            intro heq
            apply (List.nodup_cons.mp hnd).1
            rw [heq]
            exact List.mem_map_of_mem childNameOf (List.getElem_mem hj')
          show assocLookup ((childNameOf v, jsonToChild v start) :: childEntries (start + 1) rest)
              (childNameOf (rest[j'])) =
            some (jsonToChild (rest[j']) (start + ((j' + 1 : Nat) : Int)))
          simp only [assocLookup, if_neg hne]
          rw [ih (start + 1) j' hj' (List.nodup_cons.mp hnd).2]
          rw [show start + 1 + (j' : Int) = start + ((j' + 1 : Nat) : Int) from by
            push_cast; ring]

theorem folder_roundtrip_aux (f : Folder)
    (hp : f.parent.isNull = true ∨ f.parent.type = AssetType.Folder) :
    folderEq (JsonToFolder (FolderToJson f.name f) f.ref) f := by
  by_cases hn : f.parent.isNull = true
  · have henc : FolderToJson f.name f = [("name", JValue.str f.name)] := by
      simp [FolderToJson, hn]
    rw [henc]
    have hu : f.parent.uuid = "" := by
      have h2 := hn
      simp [AssetRef.isNull] at h2
      exact h2
    exact ⟨refEq_refl _, rfl, Or.inl ⟨rfl, hu⟩⟩
  · have htype : f.parent.type = AssetType.Folder := hp.resolve_left hn
    have henc : FolderToJson f.name f =
        [("name", JValue.str f.name), ("parent", JValue.str f.parent.uuid)] := by
      simp [FolderToJson, hn]
    rw [henc]
    exact ⟨refEq_refl _, rfl, Or.inr ⟨rfl, htype.symm⟩⟩

theorem composite_roundtrip_aux (c : Composite) (hinv : CompInv c) :
    compositeEq (JsonToComposite (CompositeToJson c.name c) c.ref) c := by
  obtain ⟨hnd, hfix, hidx, hkeys, hpart, hparC⟩ := hinv
  have hmapself : c.children.map (fun n => childNameOf (JValue.obj (childToJson c n))) =
      c.children := list_map_self (fun n hn => hfix n hn)
  have hvals_names :
      ((c.children.map (fun n => JValue.obj (childToJson c n))).map childNameOf) =
        c.children := by
    rw [List.map_map]
    exact hmapself
  have hroot : jlookup (CompositeToJson c.name c) "root" = JValue.num c.root := by
    by_cases hpn : c.parent.isNull = true <;>
      simp [CompositeToJson, hpn, jlookup, assocLookup]
  have hname : jlookup (CompositeToJson c.name c) "name" = JValue.str c.name := by
    by_cases hpn : c.parent.isNull = true <;>
      simp [CompositeToJson, hpn, jlookup, assocLookup]
  have hprops : jlookup (CompositeToJson c.name c) "properties" =
      JValue.str c.properties := by
    by_cases hpn : c.parent.isNull = true <;>
      simp [CompositeToJson, hpn, jlookup, assocLookup]
  have hparts : jlookup (CompositeToJson c.name c) "parts" =
      JValue.arr (c.children.map (fun n => JValue.obj (childToJson c n))) := by
    by_cases hpn : c.parent.isNull = true <;>
      simp [CompositeToJson, hpn, jlookup, assocLookup]
  have hvals : (jlookup (CompositeToJson c.name c) "parts").toArray =
      c.children.map (fun n => JValue.obj (childToJson c n)) := by
    rw [hparts]
    rfl
  have hnd3 : (((c.children.map (fun n => JValue.obj (childToJson c n))).map
      childNameOf)).Nodup := by
    rw [hvals_names]
    exact hnd
  have hchl : (JsonToComposite (CompositeToJson c.name c) c.ref).children = c.children := by
    show ((jlookup (CompositeToJson c.name c) "parts").toArray).map childNameOf = c.children
    rw [hvals]
    exact hvals_names
  have hcm : (JsonToComposite (CompositeToJson c.name c) c.ref).childrenMap =
      childEntries 0 (c.children.map (fun n => JValue.obj (childToJson c n))) := by
    show buildChildrenMapFrom 0 ((jlookup (CompositeToJson c.name c) "parts").toArray) [] = _
    rw [hvals]
    rw [buildChildrenMapFrom_eq _ 0 [] hnd3 (fun e he => absurd he (List.not_mem_nil e))]
    simp
  unfold compositeEq
  refine ⟨refEq_refl _, ?_, ?_, ?_, ?_, hchl, ?_⟩
  · show (jlookup (CompositeToJson c.name c) "root").toVariantInt = c.root
    rw [hroot]
    rfl
  · show (jlookup (CompositeToJson c.name c) "name").toQString = c.name
    rw [hname]
    rfl
  · show (jlookup (CompositeToJson c.name c) "properties").toQString = c.properties
    rw [hprops]
    rfl
  · by_cases hpn : c.parent.isNull = true
    · have hcf : jcontains (CompositeToJson c.name c) "parent" = false := by
        simp [CompositeToJson, hpn, jcontains, assocLookup]
      have hdp : (JsonToComposite (CompositeToJson c.name c) c.ref).parent = nullRef := by
        simp [JsonToComposite, hcf]
      rw [hdp]
      have hu : c.parent.uuid = "" := by
        have h2 := hpn
        simp [AssetRef.isNull] at h2
        exact h2
      exact Or.inl ⟨rfl, hu⟩
    · have hct : jcontains (CompositeToJson c.name c) "parent" = true := by
        simp [CompositeToJson, hpn, jcontains, assocLookup]
      have hpl : jlookup (CompositeToJson c.name c) "parent" =
          JValue.str c.parent.uuid := by
        simp [CompositeToJson, hpn, jlookup, assocLookup]
      have hdp : (JsonToComposite (CompositeToJson c.name c) c.ref).parent =
          { uuid := c.parent.uuid, type := AssetType.Folder } := by
        simp [JsonToComposite, hct, hpl, JValue.toQString]
      rw [hdp]
      exact Or.inr ⟨rfl, (hparC.resolve_left hpn).symm⟩
  · intro n
    rw [hcm]
    by_cases hn : n ∈ c.children
    · obtain ⟨j, hj, hget⟩ := List.mem_iff_getElem.mp hn
      have hjv : j < (c.children.map (fun n => JValue.obj (childToJson c n))).length := by
        simpa using hj
      have hkey :
          childNameOf ((c.children.map (fun n => JValue.obj (childToJson c n)))[j]) = n := by
        rw [List.getElem_map]
        calc childNameOf (JValue.obj (childToJson c (c.children[j])))
            = fixName (c.children[j]) := rfl
          _ = c.children[j] := hfix (c.children[j]) (List.getElem_mem hj)
          _ = n := hget
      have hlk := childEntries_lookup
        (c.children.map (fun n => JValue.obj (childToJson c n))) 0 j hjv hnd3
      rw [hkey] at hlk
      rw [hlk]
      have hoi := hidx j hj
      rw [show c.children.get ⟨j, hj⟩ = n from hget] at hoi
      obtain ⟨ch, hch, hchidx⟩ := Option.map_eq_some'.mp hoi
      rw [hch]
      show childEq
        (jsonToChild ((c.children.map (fun n => JValue.obj (childToJson c n)))[j])
          (0 + (j : Int))) ch
      have hje : (c.children.map (fun n => JValue.obj (childToJson c n)))[j] =
          JValue.obj (childToJson c n) := by
        rw [List.getElem_map, hget]
      rw [hje]
      have hgetD : (assocLookup c.childrenMap n).getD defaultChild = ch := by
        rw [hch]
        rfl
      have hmem : (n, ch) ∈ c.childrenMap := assocLookup_mem hch
      refine ⟨?_, ?_, ?_, ?_, ?_, ?_⟩
      · show ((assocLookup c.childrenMap n).getD defaultChild).parent = ch.parent
        rw [hgetD]
      · show ((assocLookup c.childrenMap n).getD defaultChild).parentPivot = ch.parentPivot
        rw [hgetD]
      · show ((assocLookup c.childrenMap n).getD defaultChild).z = ch.z
        rw [hgetD]
      · show refEq { uuid := ((assocLookup c.childrenMap n).getD defaultChild).part.uuid
                     type := AssetType.Part } ch.part
        rw [hgetD]
        rcases hpart (n, ch) hmem with hpnull | hptype
        · have hu : ch.part.uuid = "" := by
            have h2 := hpnull
            simp [AssetRef.isNull] at h2
            exact h2
          exact Or.inl ⟨hu, hu⟩
        · exact Or.inr ⟨rfl, hptype.symm⟩
      · show (0 : Int) + (j : Int) = ch.index
        rw [hchidx]
        simp
      · show ((((assocLookup c.childrenMap n).getD defaultChild).children.map
            JValue.num).map JValue.toVariantInt) = ch.children
        rw [hgetD, List.map_map]
        exact list_map_self (fun x _ => rfl)
    · have h1 : assocLookup
          (childEntries 0 (c.children.map (fun n => JValue.obj (childToJson c n)))) n =
            none := by
        apply assocLookup_eq_none
        rw [childEntries_keys, hvals_names]
        exact hn
      have h2 : assocLookup c.childrenMap n = none := by
        cases hl2 : assocLookup c.childrenMap n with
        | none => rfl
        | some ch => exact absurd (hkeys (n, ch) (assocLookup_mem hl2)) hn
      rw [h1, h2]
      trivial

/-- C5 (amended): `decode(encode(x)) == x` holds for the Folder mapper on
every folder meeting the §3 invariants, and for the Composite mapper on
every composite meeting the §3 invariants whose child names are unchanged
by the space-to-underscore normalization (`CompInv`); a child name holding
a space breaks the round trip (see the counterexample). -/
theorem folder_composite_roundtrip :
    (∀ f : Folder, (f.parent.isNull = true ∨ f.parent.type = AssetType.Folder) →
      folderEq (JsonToFolder (FolderToJson f.name f) f.ref) f) ∧
    (∀ c : Composite, CompInv c →
      compositeEq (JsonToComposite (CompositeToJson c.name c) c.ref) c) :=
  ⟨folder_roundtrip_aux, composite_roundtrip_aux⟩

/-- The C5 counterexample composite: its single child is named `"a b"`. -/
def compSpace : Composite :=
  { ref := { uuid := "cu", type := AssetType.Composite }, root := 0, name := "C",
    properties := "", parent := nullRef, children := ["a b"],
    childrenMap := [("a b", { parent := -1, parentPivot := 0, z := 0, part := nullRef,
                              index := 0, children := [] })] }

/-- C5 (counterexample): the composite with child name `"a b"` does not
round-trip — encoding normalizes the name to `"a_b"` and decoding keeps it,
so the decoded `children` list differs from the original. -/
theorem composite_roundtrip_counterexample :
    ¬ compositeEq (JsonToComposite (CompositeToJson compSpace.name compSpace) compSpace.ref)
      compSpace := by
  intro h
  have hch := h.2.2.2.2.2.1
  have h2 : (["a_b"] : List String) = ["a b"] := hch
  exact absurd h2 (by decide)

/-- The C5 witness folder. -/
def folderW : Folder :=
  { ref := { uuid := "fu", type := AssetType.Folder }, name := "F", parent := nullRef }

/-- The C5 witness composite (one child, no spaces, in-sync maps). -/
def compW : Composite :=
  { ref := { uuid := "cu", type := AssetType.Composite }, root := 0, name := "C",
    properties := "props", parent := nullRef, children := ["a"],
    childrenMap := [("a", { parent := -1, parentPivot := 2, z := 3,
                            part := { uuid := "pu", type := AssetType.Part },
                            index := 0, children := [1, 2] })] }

/-- Witness for C5 (amended) at a concrete folder and composite. -/
theorem roundtrip_witness :
    folderEq (JsonToFolder (FolderToJson folderW.name folderW) folderW.ref) folderW ∧
    compositeEq (JsonToComposite (CompositeToJson compW.name compW) compW.ref) compW :=
  ⟨folder_composite_roundtrip.1 folderW (Or.inl rfl),
   folder_composite_roundtrip.2 compW (by decide)⟩

end MQSprite
